import Mathlib

/- A shallow embedding of the retrieval / generation core of the offline
   legal-assistant application (src/app.py).

   Text is modelled as `List Char`: Python `str` indexing and slicing work
   on code points, exactly as `List Char` does.  The filesystem is passed
   in as a function `loadLaw : String → List Char` standing for `load_law`,
   which in the source returns `""` whenever a file cannot be read, so a
   total function (with `[]` for missing files) is a faithful model.
   The llama engine is abstracted as an optional generation function
   returning `Except` (an exception raised by the call is `Except.error`
   carrying the exception's message). -/

namespace App

/-- Model of Python `str.lower` on a single character, restricted to the
character repertoire this application uses: ASCII letters and Russian
Cyrillic (А..Я map to а..я, Ё to ё); every other character is unchanged. -/
def pyLowerChar (c : Char) : Char :=
  if 'A' ≤ c ∧ c ≤ 'Z' then Char.ofNat (c.toNat + 32)
  else if 'А' ≤ c ∧ c ≤ 'Я' then Char.ofNat (c.toNat + 32)
  else if c = 'Ё' then 'ё'
  else c

/-- Python `s.lower()`. -/
def lower (s : List Char) : List Char := s.map pyLowerChar

/-- Python whitespace test used by `str.strip` / `str.lstrip` (ASCII part:
space, tab, newline, carriage return, vertical tab `\x0b`, form feed `\x0c`). -/
def pyIsSpace (c : Char) : Bool :=
  c == ' ' || c == '\t' || c == '\n' || c == '\r' ||
  c == Char.ofNat 11 || c == Char.ofNat 12

/-- Python `s.lstrip()`. -/
def lstripL (s : List Char) : List Char := s.dropWhile pyIsSpace

/-- Python `s.rstrip()`. -/
def rstripL (s : List Char) : List Char := (s.reverse.dropWhile pyIsSpace).reverse

/-- Python `s.strip()`. -/
def pyStrip (s : List Char) : List Char := lstripL (rstripL s)

/-- Python `hay.find(pat)`: offset of the first occurrence of `pat` in
`hay`, `none` for Python's `-1`.  (`"".find("") = 0`, as in Python.) -/
def listFind (hay pat : List Char) : Option Nat :=
  if pat.isPrefixOf hay then some 0
  else
    match hay with
    | [] => none
    | _ :: t => (listFind t pat).map (fun i => i + 1)

/-- Python `pat in hay` (substring containment). -/
def containsSub (hay pat : List Char) : Bool := (listFind hay pat).isSome

/-- Python `re.findall(r"\d+", s)` followed by taking the first element:
the first maximal run of decimal digits in `s`, if any.  (`\d` restricted
to ASCII digits, the only digits relevant to this application.) -/
def firstDigitRun (s : List Char) : Option (List Char) :=
  match s.dropWhile (fun c => !c.isDigit) with
  | [] => none
  | t => some (t.takeWhile (fun c => c.isDigit))

/-- Python slice `s[a:b]` for `0 ≤ a ≤ b` (both ends clipped to the
length of `s`, as Python clips). -/
def pySlice (s : List Char) (a b : Nat) : List Char := (s.take b).drop a

/-- Source: `LAWS_FILES` (src/app.py lines 140-147), in its exact order. -/
def LAWS_FILES : List String :=
  ["constitution_rf.txt", "gk_rf.txt", "uk_rf.txt",
   "koap_rf.txt", "law_police.txt", "law_consumer.txt"]

/-- Source: `detect_file` (src/app.py lines 159-173): classify a query into
at most one document by trigger substrings, in the source's cascade order. -/
def detect_file (q : List Char) : Option String :=
  let q := lower q
  if containsSub q ("уголов".data) || containsSub q ("ук".data) then
    some "uk_rf.txt"
  else if containsSub q ("коап".data) || containsSub q ("административ".data) then
    some "koap_rf.txt"
  else if containsSub q ("гк".data) || containsSub q ("граждан".data) then
    some "gk_rf.txt"
  else if containsSub q ("конституц".data) then some "constitution_rf.txt"
  else if containsSub q ("полици".data) then some "law_police.txt"
  else if containsSub q ("потребител".data) then some "law_consumer.txt"
  else none

/-- Source: the fallback loop of `find_article` (src/app.py lines 195-202):
scan the files in order, skip files whose content is empty (`if not full:
continue`), and return the first file whose lowercased content contains the
lowercased query, with the window `full[max(0, idx - 80) : idx + 900]`. -/
def fallbackScan (loadLaw : String → List Char) (q : List Char) :
    List String → Option (String × List Char)
  | [] => none
  | f :: rest =>
    if (loadLaw f).isEmpty then fallbackScan loadLaw q rest
    else
      match listFind (lower (loadLaw f)) q with
      | some idx => some (f, pySlice (loadLaw f) (idx - 80) (idx + 900))
      | none => fallbackScan loadLaw q rest

/-- Source: `find_article` (src/app.py lines 176-204).  `none` models the
Python return `(None, None)`; `some (name, frag)` models `(name, frag)`.
The precise tier runs only when both a digit run and a classified document
exist (`if num and codex:`; the digit run is never the empty string, so
Python's truthiness test on `num` is exactly the `some` test), and on a
miss control falls through to the fallback loop. -/
def find_article (loadLaw : String → List Char) (query : List Char)
    (lawsOk : Bool) : Option (String × List Char) :=
  if lawsOk = false then none
  else
    match firstDigitRun (lower query), detect_file (lower query) with
    | some n, some d =>
      match listFind (lower (loadLaw d)) (("статья ".data) ++ n) with
      | some idx => some (d, pySlice (loadLaw d) (idx - 80) (idx + 900))
      | none => fallbackScan loadLaw (lower query) LAWS_FILES
    | some _, none => fallbackScan loadLaw (lower query) LAWS_FILES
    | none, _ => fallbackScan loadLaw (lower query) LAWS_FILES

/-- Source: `get_llm` (src/app.py lines 37-59), as a state transition on the
global `llm` handle.  `hasLlama` is `HAS_LLAMA`, `modelExists` is
`os.path.exists(MODEL_PATH)`, `llm` the handle before the call, and `build`
the outcome `Llama(...)` would have (`some h` a constructed handle, `none`
a raised construction exception).  Result: (handle after the call, returned
value).  `build` is consulted exactly when the source would execute the
`try` block, i.e. when both preconditions hold and the handle is empty. -/
def get_llm {H : Type} (hasLlama modelExists : Bool) (llm build : Option H) :
    Option H × Option H :=
  if hasLlama = false then (llm, none)
  else if modelExists = false then (llm, none)
  else
    match llm with
    | some h => (some h, some h)
    | none =>
      match build with
      | some h => (some h, some h)
      | none => (none, none)

/-- Source: the echo-prefix list of `AIWorker.run` (src/app.py lines
115-121), in its exact order. -/
def echoPrefixes : List (List Char) :=
  ["Ответ:".data, "ответ:".data, "Ответ пользователя:".data,
   "Вопрос пользователя:".data, "Вопрос:".data]

/-- One iteration of the cleanup loop of `AIWorker.run` (src/app.py lines
122-123): `if text.startswith(p): text = text[len(p):].lstrip()`. -/
def stripStep (t p : List Char) : List Char :=
  if p.isPrefixOf t then lstripL (t.drop p.length) else t

/-- Source: the whole cleanup loop of `AIWorker.run` (src/app.py lines
115-123): the `for prefix in [...]` loop applies `stripStep` once per
listed entry, in order, with no break. -/
def cleanPrefixes (t : List Char) : List Char := echoPrefixes.foldl stripStep t

/-- Source: the fallback answer of `AIWorker.run` (src/app.py line 127). -/
def fallbackMsg : List Char :=
  "ИИ не смог сформулировать ответ. Попробуйте переформулировать вопрос.".data

/-- Source: the terminal punctuation set `".?!…»\"'"` of `AIWorker.run`
(src/app.py line 130).  `Char.ofNat 34` is the quotation mark `"`,
`Char.ofNat 39` the apostrophe. -/
def terminalPunct : List Char :=
  ['.', '?', '!', '…', '»', Char.ofNat 34, Char.ofNat 39]

/-- Source: src/app.py lines 130-131: `if text and text[-1] not in
".?!…»\"'": text += "…"`. -/
def punctuate (t : List Char) : List Char :=
  match t.getLast? with
  | none => t
  | some c => if terminalPunct.contains c then t else t ++ ['…']

/-- True when the text is non-empty and its final character is one of the
terminal punctuation marks. -/
def endsInTerminal (t : List Char) : Bool :=
  match t.getLast? with
  | none => false
  | some c => terminalPunct.contains c

/-- Source: the post-processing of the raw generation output inside the
`try` block of `AIWorker.run` (src/app.py lines 111-131): strip, run the
echo-prefix cleanup loop, substitute the fallback for an empty result, and
append an ellipsis when the final character is not terminal punctuation.
(`(raw or "")` agrees with `raw` on strings once `None` is modelled as the
empty string.) -/
def postprocess (raw : List Char) : List Char :=
  let text := pyStrip raw
  let text := cleanPrefixes text
  let text := if text.isEmpty then fallbackMsg else text
  punctuate text

/-- Source: the engine-unavailable message of `AIWorker.run` (src/app.py
lines 74-78). -/
def unavailableMsg : List Char :=
  ("Локальный ИИ не настроен.\n\nПроверь, что установлен пакет llama-cpp-python\nи существует файл models/mistral.gguf рядом с программой.").data

/-- Source: the `except` branch of `AIWorker.run` (src/app.py line 134):
`text = f"Ошибка работы ИИ: {e}"`. -/
def aiErrorMsg (e : List Char) : List Char := ("Ошибка работы ИИ: ".data) ++ e

/-- Source: the prompt f-string of `AIWorker.run` (src/app.py lines
82-100). -/
def buildPrompt (question fragment : List Char) : List Char :=
  ("\nТы юридический помощник по законодательству РФ.\nОтвечай простым, понятным языком, но опирайся только на реальные законы РФ.\nЕсли нет точной информации, честно напиши, что данных недостаточно\nи порекомендуй обратиться к официальным источникам\n(Консультант+, pravo.gov.ru и т.п.).\n\nНиже может быть фрагмент закона (если найден):\n\nКонтекст закона:\n").data
  ++ fragment
  ++ ("\n\nВопрос пользователя:\n").data
  ++ question
  ++ ("\n\nТеперь дай развёрнутый, но по делу ответ от первого лица.\nНе переписывай вопрос целиком. Не повторяй текст инструкции.\nОтвет:\n").data

/-- Source: `AIWorker.run` (src/app.py lines 71-136), as the list of strings
emitted through the `finished` signal during one call.  `engine` is the
result of `get_llm()` (`none` = unavailable); a `some` engine is the
generation call, whose raised exception is `Except.error` with the
exception's message.  The three control paths of the source are: emit the
diagnostic and return; emit the post-processed output; emit the error
message built in the `except` branch. -/
def runEmits (question fragment : List Char)
    (engine : Option (List Char → Except (List Char) (List Char))) :
    List (List Char) :=
  match engine with
  | none => [unavailableMsg]
  | some gen =>
    match gen (buildPrompt question fragment) with
    | Except.ok raw => [postprocess raw]
    | Except.error e => [aiErrorMsg e]

/-- Follows the spec's words for claim C6 (not the source): the first
document, in the fixed enumeration order, whose lowercased content contains
the query as a literal substring. -/
def firstDocContaining (loadLaw : String → List Char) (q : List Char) :
    Option String :=
  LAWS_FILES.find? (fun f => containsSub (lower (loadLaw f)) q)

/-- Follows the spec's words for claim C3 (not the source): `r` arises from
`t` by removing at most one leading echo-prefix (with the trailing
whitespace trim the source applies after a removal). -/
def atMostOneStrip (t r : List Char) : Bool :=
  (r == t) || echoPrefixes.any (fun p => p.isPrefixOf t && (r == stripStep t p))

/-- Concrete corpus for the C10 example: only uk_rf.txt is present. -/
def exLoadC10 : String → List Char := fun f =>
  if f = "uk_rf.txt" then ("УК РФ. Статья 158. Кража наказывается".data) else []

/-- Concrete corpus for the C2 witness: only uk_rf.txt is present. -/
def exLoadC2 : String → List Char := fun f =>
  if f = "uk_rf.txt" then ("кодекс статья 7 о тестах".data) else []

/-- Concrete corpus for the C6 witness: only gk_rf.txt is present. -/
def exLoadC6 : String → List Char := fun f =>
  if f = "gk_rf.txt" then ("тут привет мир".data) else []

/-- Concrete corpus for the C7 witness: only koap_rf.txt is present. -/
def exLoadC7 : String → List Char := fun f =>
  if f = "koap_rf.txt" then ("статья 12 о штрафах".data) else []

/-- Concrete corpus for the C9 witness: only gk_rf.txt is present. -/
def exLoadC9 : String → List Char := fun f =>
  if f = "gk_rf.txt" then ("статья 3 право".data) else []

/-! Helper lemmas about the embedded primitives. -/

theorem listFind_nil (q : List Char) (hq : q ≠ []) : listFind [] q = none := by
  unfold listFind
  cases q with
  | nil => exact absurd rfl hq
  | cons c cs => rfl

theorem listFind_nil_eq (pat : List Char) :
    listFind [] pat = if pat.isPrefixOf [] then some 0 else none := rfl

theorem listFind_cons (a : Char) (t pat : List Char) :
    listFind (a :: t) pat =
      if pat.isPrefixOf (a :: t) then some 0
      else (listFind t pat).map (fun i => i + 1) := rfl

theorem listFind_of_head_match (hay pat : List Char)
    (hp : pat.isPrefixOf hay = true) : listFind hay pat = some 0 := by
  cases hay with
  | nil => rw [listFind_nil_eq, if_pos hp]
  | cons x t => rw [listFind_cons, if_pos hp]

theorem listFind_nil_pat (hay : List Char) : listFind hay [] = some 0 :=
  listFind_of_head_match hay []
    (List.isPrefixOf_iff_prefix.mpr List.nil_prefix)

theorem listFind_drop (hay pat : List Char) (i : Nat)
    (h : listFind hay pat = some i) : pat.isPrefixOf (hay.drop i) = true := by
  induction hay generalizing i with
  | nil =>
    rw [listFind_nil_eq] at h
    by_cases hp : pat.isPrefixOf []
    · rw [if_pos hp] at h
      obtain rfl : 0 = i := Option.some.inj h
      simpa using hp
    · rw [if_neg hp] at h
      cases h
  | cons a t ih =>
    rw [listFind_cons] at h
    by_cases hp : pat.isPrefixOf (a :: t)
    · rw [if_pos hp] at h
      obtain rfl : 0 = i := Option.some.inj h
      simpa using hp
    · rw [if_neg hp] at h
      cases ho : listFind t pat with
      | none => rw [ho] at h; cases h
      | some j =>
        rw [ho] at h
        obtain rfl : j + 1 = i := Option.some.inj h
        rw [List.drop_succ_cons]
        exact ih j ho

theorem listFind_lt_length (hay pat : List Char) (i : Nat)
    (hp : pat ≠ []) (h : listFind hay pat = some i) : i < hay.length := by
  have hpre : pat <+: hay.drop i :=
    List.isPrefixOf_iff_prefix.mp (listFind_drop hay pat i h)
  have h1 : pat.length ≤ (hay.drop i).length := hpre.length_le
  rw [List.length_drop] at h1
  have h2 : 0 < pat.length := List.length_pos.mpr hp
  omega

theorem lower_length (s : List Char) : (lower s).length = s.length := by
  simp [lower]

theorem pySlice_length (s : List Char) (a b : Nat) :
    (pySlice s a b).length = min b s.length - a := by
  simp [pySlice]

theorem pySlice_within (s : List Char) (a b : Nat) : pySlice s a b <:+: s := by
  have h1 : (s.take b).drop a <:+ s.take b := List.drop_suffix _ _
  have h2 : s.take b <+: s := List.take_prefix _ _
  exact List.IsInfix.trans ( List.IsSuffix.isInfix h1) ( List.IsPrefix.isInfix h2)

theorem containsSub_append_self (a b : List Char) :
    containsSub (a ++ b) b = true := by
  induction a with
  | nil =>
    unfold containsSub
    rw [List.nil_append,
      listFind_of_head_match b b (List.isPrefixOf_iff_prefix.mpr (by simp))]
    rfl
  | cons x xs ih =>
    unfold containsSub at ih ⊢
    rw [List.cons_append, listFind_cons]
    by_cases hp : b.isPrefixOf (x :: (xs ++ b))
    · rw [if_pos hp]
      rfl
    · rw [if_neg hp]
      cases ho : listFind (xs ++ b) b with
      | none => rw [ho] at ih; cases ih
      | some j => rfl

theorem fallbackScan_sound (loadLaw : String → List Char) (q : List Char)
    (files : List String) (d : String) (frag : List Char)
    (h : fallbackScan loadLaw q files = some (d, frag)) :
    ∃ i, listFind (lower (loadLaw d)) q = some i ∧
      frag = pySlice (loadLaw d) (i - 80) (i + 900) ∧ i < (loadLaw d).length := by
  induction files with
  | nil => simp [fallbackScan] at h
  | cons f rest ih =>
    rw [fallbackScan] at h
    by_cases he : (loadLaw f).isEmpty
    · rw [if_pos he] at h
      exact ih h
    · rw [if_neg he] at h
      cases ho : listFind (lower (loadLaw f)) q with
      | none => rw [ho] at h; exact ih h
      | some idx =>
        rw [ho] at h
        have hpair := Option.some.inj h
        obtain ⟨rfl, rfl⟩ : f = d ∧ pySlice (loadLaw f) (idx - 80) (idx + 900) = frag := by
          exact ⟨congrArg Prod.fst hpair, congrArg Prod.snd hpair⟩
        have hne : loadLaw f ≠ [] := by
          intro hcon
          rw [hcon] at he
          exact he rfl
        refine ⟨idx, ho, rfl, ?_⟩
        by_cases hq : q = []
        · rw [hq, listFind_nil_pat] at ho
          obtain rfl : (0 : Nat) = idx := Option.some.inj ho
          exact List.length_pos.mpr hne
        · have := listFind_lt_length (lower (loadLaw f)) q idx hq ho
          rwa [lower_length] at this

theorem find_article_sound (loadLaw : String → List Char) (query : List Char)
    (lawsOk : Bool) (d : String) (frag : List Char)
    (h : find_article loadLaw query lawsOk = some (d, frag)) :
    ∃ i pat, listFind (lower (loadLaw d)) pat = some i ∧
      frag = pySlice (loadLaw d) (i - 80) (i + 900) ∧ i < (loadLaw d).length := by
  unfold find_article at h
  by_cases hok : lawsOk = false
  · rw [if_pos hok] at h
    cases h
  · rw [if_neg hok] at h
    cases hn : firstDigitRun (lower query) with
    | none =>
      simp only [hn] at h
      obtain ⟨i, hfind, hfrag, hlt⟩ := fallbackScan_sound _ _ _ _ _ h
      exact ⟨i, lower query, hfind, hfrag, hlt⟩
    | some n =>
      cases hd : detect_file (lower query) with
      | none =>
        simp only [hn, hd] at h
        obtain ⟨i, hfind, hfrag, hlt⟩ := fallbackScan_sound _ _ _ _ _ h
        exact ⟨i, lower query, hfind, hfrag, hlt⟩
      | some d0 =>
        simp only [hn, hd] at h
        cases hf : listFind (lower (loadLaw d0)) (("статья ".data) ++ n) with
        | none =>
          simp only [hf] at h
          obtain ⟨i, hfind, hfrag, hlt⟩ := fallbackScan_sound _ _ _ _ _ h
          exact ⟨i, lower query, hfind, hfrag, hlt⟩
        | some idx =>
          simp only [hf, Option.some.injEq, Prod.mk.injEq] at h
          obtain ⟨rfl, rfl⟩ := h
          refine ⟨idx, ("статья ".data) ++ n, hf, rfl, ?_⟩
          have hpat : ("статья ".data) ++ n ≠ [] :=
            List.append_ne_nil_of_left_ne_nil (by decide) _
          have := listFind_lt_length _ _ _ hpat hf
          rwa [lower_length] at this

theorem punctuate_some (t : List Char) (c : Char) (hl : t.getLast? = some c) :
    punctuate t = if terminalPunct.contains c then t else t ++ ['…'] := by
  unfold punctuate
  rw [hl]

theorem endsInTerminal_some (t : List Char) (c : Char) (hl : t.getLast? = some c) :
    endsInTerminal t = terminalPunct.contains c := by
  unfold endsInTerminal
  rw [hl]

theorem punctuate_ok (t : List Char) (h : t ≠ []) :
    punctuate t ≠ [] ∧ endsInTerminal (punctuate t) = true := by
  cases hl : t.getLast? with
  | none => exact absurd (List.getLast?_eq_none_iff.mp hl) h
  | some c =>
    rw [punctuate_some t c hl]
    by_cases hc : terminalPunct.contains c
    · rw [if_pos hc]
      refine ⟨h, ?_⟩
      rw [endsInTerminal_some t c hl]
      exact hc
    · rw [if_neg hc]
      refine ⟨by simp, ?_⟩
      rw [endsInTerminal_some (t ++ ['…']) '…' (List.getLast?_concat _)]
      decide

theorem postprocess_ok (raw : List Char) :
    postprocess raw ≠ [] ∧ endsInTerminal (postprocess raw) = true := by
  have hshape : postprocess raw
      = punctuate (if (cleanPrefixes (pyStrip raw)).isEmpty then fallbackMsg
          else cleanPrefixes (pyStrip raw)) := rfl
  rw [hshape]
  by_cases he : (cleanPrefixes (pyStrip raw)).isEmpty
  · rw [if_pos he]
    exact punctuate_ok fallbackMsg (by decide)
  · rw [if_neg he]
    refine punctuate_ok _ ?_
    intro hcon
    rw [hcon] at he
    exact he rfl

theorem fallbackScan_eq_find (loadLaw : String → List Char) (q : List Char)
    (hq : q ≠ []) (files : List String) :
    (fallbackScan loadLaw q files).map Prod.fst
      = files.find? (fun f => containsSub (lower (loadLaw f)) q) := by
  induction files with
  | nil => simp [fallbackScan]
  | cons f rest ih =>
    rw [fallbackScan]
    by_cases he : (loadLaw f).isEmpty
    · rw [if_pos he]
      have hempty : loadLaw f = [] := by
        cases hcase : loadLaw f with
        | nil => rfl
        | cons c cs => rw [hcase] at he; cases he
      have hfalse : containsSub (lower (loadLaw f)) q = false := by
        rw [hempty]
        show (listFind (lower []) q).isSome = false
        rw [show lower [] = [] from rfl, listFind_nil q hq]
        rfl
      rw [List.find?_cons_of_neg, ih]
      simp [hfalse]
    · rw [if_neg he]
      cases ho : listFind (lower (loadLaw f)) q with
      | some idx =>
        have htrue : containsSub (lower (loadLaw f)) q = true := by
          unfold containsSub
          rw [ho]
          rfl
        rw [List.find?_cons_of_pos]
        · rfl
        · simp [htrue]
      | none =>
        have hfalse : containsSub (lower (loadLaw f)) q = false := by
          unfold containsSub
          rw [ho]
          rfl
        rw [List.find?_cons_of_neg, ih]
        simp [hfalse]

/-! Claim theorems. -/

/-- C1 counterexample: when the generation call raises an internal fault
with message "X", `AIWorker.run` emits "Ошибка работы ИИ: X", which does
contain "X" and is non-empty, but does NOT end in one of the terminal
punctuation marks — the ellipsis-appending step lives inside the `try`
block and is skipped on the exception path. -/
theorem run_error_path_unpunctuated :
    runEmits ("вопрос".data) [] (some (fun _ => Except.error ("X".data)))
        = [aiErrorMsg ("X".data)]
    ∧ containsSub (aiErrorMsg ("X".data)) ("X".data) = true
    ∧ aiErrorMsg ("X".data) ≠ []
    ∧ endsInTerminal (aiErrorMsg ("X".data)) = false :=
  ⟨rfl, by decide, by decide, by decide⟩

/-- C1 amended: the string emitted by `AIWorker.run` is always non-empty;
on the engine-unavailable path and on the successful-generation path it
moreover ends in a terminal punctuation mark, while on the exception path
it is the fixed error text followed by the fault message (so it contains
the message, but carries no appended punctuation). -/
theorem runEmits_output_shape (q f raw e : List Char) :
    runEmits q f none = [unavailableMsg]
    ∧ unavailableMsg ≠ []
    ∧ endsInTerminal unavailableMsg = true
    ∧ runEmits q f (some (fun _ => Except.ok raw)) = [postprocess raw]
    ∧ postprocess raw ≠ []
    ∧ endsInTerminal (postprocess raw) = true
    ∧ runEmits q f (some (fun _ => Except.error e)) = [aiErrorMsg e]
    ∧ aiErrorMsg e ≠ []
    ∧ containsSub (aiErrorMsg e) e = true := by
  exact ⟨rfl, by decide, by decide, rfl, (postprocess_ok raw).1,
    (postprocess_ok raw).2, rfl,
    List.append_ne_nil_of_left_ne_nil (by decide) e,
    containsSub_append_self _ e⟩

/-- C3 counterexample: on the input "Ответ:Вопрос:текст" the cleanup loop
of `AIWorker.run` removes TWO echo-prefixes ("Ответ:" and then "Вопрос:"),
leaving "текст" — not at most one, as the claim states. -/
theorem cleanPrefixes_strips_two :
    cleanPrefixes ("Ответ:Вопрос:текст".data) = ("текст".data)
    ∧ atMostOneStrip ("Ответ:Вопрос:текст".data)
        (cleanPrefixes ("Ответ:Вопрос:текст".data)) = false :=
  ⟨by decide, by decide⟩

/-- C3 amended: the cleanup is a single pass over the fixed five-element
prefix list in order; each step removes at most the one prefix it tests
(case-sensitively, from the start only, trimming whitespace after the
removal), so up to five different listed prefixes can be removed in one
pass — at most one removal per listed prefix, not at most one overall. -/
theorem cleanPrefixes_per_entry (t : List Char) :
    cleanPrefixes t = echoPrefixes.foldl stripStep t
    ∧ ∀ s p : List Char, stripStep s p = s
        ∨ (p.isPrefixOf s = true ∧ stripStep s p = lstripL (s.drop p.length)) := by
  refine ⟨rfl, fun s p => ?_⟩
  unfold stripStep
  by_cases hp : p.isPrefixOf s
  · exact Or.inr ⟨hp, by rw [if_pos hp]⟩
  · exact Or.inl (by rw [if_neg hp])

/-- C4 counterexample: after a failed construction (state still `none`),
a later call whose construction would succeed returns the engine — so
`get_llm` re-attempts model construction rather than only re-checking the
cheap preconditions, and a construction failure is not permanent. -/
theorem get_llm_reattempts_after_failure :
    (get_llm true true ((get_llm true true (none : Option Unit) none).1)
        (some ())).2 = some ()
    ∧ (get_llm true true ((get_llm true true (none : Option Unit) none).1)
        (some ())).2 ≠ none :=
  ⟨rfl, by decide⟩

/-- C4 amended: a construction failure leaves the handle empty, and every
later call with both cheap preconditions satisfied re-enters the `try`
block and re-attempts construction: its result equals the new construction
outcome (unavailable only while construction keeps failing).  A successful
construction, by contrast, is sticky, and a missing library or model file
short-circuits to unavailable. -/
theorem get_llm_retry_semantics (b : Option Unit) :
    (get_llm true true ((get_llm true true (none : Option Unit) none).1) b).2 = b
    ∧ (get_llm true true (some ()) b).2 = some ()
    ∧ (get_llm false true (none : Option Unit) b).2 = none
    ∧ (get_llm true false (none : Option Unit) b).2 = none := by
  cases b <;> exact ⟨rfl, rfl, rfl, rfl⟩

/-- C5: `AIWorker.run` emits exactly one string through the `finished`
signal on every control path — engine unavailable, successful generation,
and a raised generation fault. -/
theorem runEmits_some (q f : List Char)
    (gen : List Char → Except (List Char) (List Char)) :
    runEmits q f (some gen) =
      match gen (buildPrompt q f) with
      | Except.ok raw => [postprocess raw]
      | Except.error e => [aiErrorMsg e] := rfl

/-- C5: `AIWorker.run` emits exactly one string through the `finished`
signal on every control path — engine unavailable, successful generation,
and a raised generation fault. -/
theorem runEmits_exactly_once (question fragment : List Char)
    (engine : Option (List Char → Except (List Char) (List Char)))
    (hq : question ≠ []) : (runEmits question fragment engine).length = 1 := by
  cases engine with
  | none => rfl
  | some gen =>
    rw [runEmits_some]
    cases gen (buildPrompt question fragment) with
    | ok raw => rfl
    | error e => rfl

theorem runEmits_exactly_once_witness :
    (("в".data : List Char) ≠ []) ∧ (runEmits ("в".data) [] none).length = 1 :=
  ⟨by decide, runEmits_exactly_once ("в".data) [] none (by decide)⟩

/-- C8: with `laws_ok = false`, `find_article` returns `(None, None)` at
once, for every filesystem content — the result does not depend on
`load_law` at all on that path. -/
theorem find_article_no_corpora (loadLaw : String → List Char)
    (query : List Char) : find_article loadLaw query false = none := by
  unfold find_article
  rw [if_pos rfl]

/-- C10: the precise tier matches by plain substring search with no
boundary check after the digits: the query "ук 15" (first digit run "15",
classified to uk_rf.txt) is answered with the window around "Статья 158",
because the first occurrence of "статья 15" in the document lies inside
"статья 158" (both at offset 7). -/
theorem find_article_matches_longer_number :
    find_article exLoadC10 ("ук 15".data) true
        = some ("uk_rf.txt", ("УК РФ. Статья 158. Кража наказывается".data))
    ∧ firstDigitRun (lower ("ук 15".data)) = some ("15".data)
    ∧ listFind (lower (exLoadC10 "uk_rf.txt")) ("статья 15".data) = some 7
    ∧ listFind (lower (exLoadC10 "uk_rf.txt")) ("статья 158".data) = some 7
    ∧ containsSub ("УК РФ. Статья 158. Кража наказывается".data)
        ("Статья 158".data) = true :=
  ⟨by decide, by decide, by decide, by decide, by decide⟩

/-- C2: for a non-empty query whose first digit run is `n` and which
`detect_file` classifies to document `d`, if the lowercased content of `d`
contains "статья n" (first occurrence at offset `i`), then `find_article`
returns exactly `d` with the window `full[max(0, i - 80) : i + 900]`
(in `Nat` arithmetic `i - 80` is already `max(0, i - 80)`), and the match
offset lies inside that window. -/
theorem find_article_precise_hit (loadLaw : String → List Char)
    (query n : List Char) (d : String) (i : Nat)
    (hq : query ≠ [])
    (h1 : firstDigitRun (lower query) = some n)
    (h2 : detect_file (lower query) = some d)
    (h3 : listFind (lower (loadLaw d)) (("статья ".data) ++ n) = some i) :
    find_article loadLaw query true
        = some (d, pySlice (loadLaw d) (i - 80) (i + 900))
    ∧ i - (i - 80) < (pySlice (loadLaw d) (i - 80) (i + 900)).length := by
  constructor
  · unfold find_article
    rw [if_neg (by simp)]
    simp only [h1, h2, h3]
  · have hpat : ("статья ".data) ++ n ≠ [] :=
      List.append_ne_nil_of_left_ne_nil (by decide) _
    have hlt : i < (loadLaw d).length := by
      have := listFind_lt_length _ _ _ hpat h3
      rwa [lower_length] at this
    rw [pySlice_length]
    omega

theorem find_article_precise_hit_witness :
    (("ук 7".data : List Char) ≠ [])
    ∧ firstDigitRun (lower ("ук 7".data)) = some ("7".data)
    ∧ detect_file (lower ("ук 7".data)) = some "uk_rf.txt"
    ∧ listFind (lower (exLoadC2 "uk_rf.txt")) (("статья ".data) ++ ("7".data))
        = some 7
    ∧ (find_article exLoadC2 ("ук 7".data) true
          = some ("uk_rf.txt", pySlice (exLoadC2 "uk_rf.txt") (7 - 80) (7 + 900))
        ∧ 7 - (7 - 80) < (pySlice (exLoadC2 "uk_rf.txt") (7 - 80) (7 + 900)).length) :=
  ⟨by decide, by decide, by decide, by decide,
    find_article_precise_hit exLoadC2 ("ук 7".data) ("7".data) "uk_rf.txt" 7
      (by decide) (by decide) (by decide) (by decide)⟩

/-- C6: for every non-empty query (the locator is only ever handed
non-empty queries) with no digit run, or no classified category, or a
precise tier that finds nothing, `find_article` runs the fallback scan
over `LAWS_FILES` in its fixed order, and the document it reports is the
first one, in that order, whose lowercased content contains the whole
lowercased query as a literal substring. -/
theorem find_article_fallback_first_doc (loadLaw : String → List Char)
    (query : List Char) (hq : query ≠ [])
    (h : firstDigitRun (lower query) = none
      ∨ detect_file (lower query) = none
      ∨ ∀ n d, firstDigitRun (lower query) = some n →
          detect_file (lower query) = some d →
          listFind (lower (loadLaw d)) (("статья ".data) ++ n) = none) :
    find_article loadLaw query true = fallbackScan loadLaw (lower query) LAWS_FILES
    ∧ (find_article loadLaw query true).map Prod.fst
        = firstDocContaining loadLaw (lower query) := by
  have hq2 : lower query ≠ [] := by
    intro hcon
    unfold lower at hcon
    exact hq (List.map_eq_nil_iff.mp hcon)
  have hfb : find_article loadLaw query true
      = fallbackScan loadLaw (lower query) LAWS_FILES := by
    unfold find_article
    rw [if_neg (by simp)]
    cases hn : firstDigitRun (lower query) with
    | none => simp only [hn]
    | some n =>
      cases hd : detect_file (lower query) with
      | none => simp only [hn, hd]
      | some d =>
        rcases h with h | h | h
        · rw [hn] at h; cases h
        · rw [hd] at h; cases h
        · simp only [hn, hd, h n d hn hd]
  refine ⟨hfb, ?_⟩
  rw [hfb]
  exact fallbackScan_eq_find loadLaw (lower query) hq2 LAWS_FILES

theorem find_article_fallback_first_doc_witness :
    (("привет".data : List Char) ≠ [])
    ∧ firstDigitRun (lower ("привет".data)) = none
    ∧ (find_article exLoadC6 ("привет".data) true
          = fallbackScan exLoadC6 (lower ("привет".data)) LAWS_FILES
        ∧ (find_article exLoadC6 ("привет".data) true).map Prod.fst
          = firstDocContaining exLoadC6 (lower ("привет".data))) :=
  ⟨by decide, by decide,
    find_article_fallback_first_doc exLoadC6 ("привет".data) (by decide)
      (Or.inl (by decide))⟩

/-- C7: every fragment `find_article` returns is a window
`full[max(0, i - 80) : i + 900]` around a match offset `i` found in the
returned document's lowercased content; in particular it is a contiguous
substring of that document, never longer than 980 characters, with the
start clipped at 0 and the end clipped at the document's length. -/
theorem find_article_window_bounds (loadLaw : String → List Char)
    (query : List Char) (lawsOk : Bool) (d : String) (frag : List Char)
    (h : find_article loadLaw query lawsOk = some (d, frag)) :
    frag.length ≤ 980 ∧ frag <:+: loadLaw d
    ∧ ∃ i pat, listFind (lower (loadLaw d)) pat = some i
        ∧ frag = pySlice (loadLaw d) (i - 80) (i + 900)
        ∧ i < (loadLaw d).length := by
  obtain ⟨i, pat, hfind, hfrag, hlt⟩ := find_article_sound _ _ _ _ _ h
  refine ⟨?_, ?_, i, pat, hfind, hfrag, hlt⟩
  · rw [hfrag, pySlice_length]
    omega
  · rw [hfrag]
    exact pySlice_within _ _ _

theorem find_article_window_bounds_witness :
    find_article exLoadC7 ("коап 12".data) true
        = some ("koap_rf.txt", ("статья 12 о штрафах".data))
    ∧ (("статья 12 о штрафах".data : List Char).length ≤ 980
        ∧ ("статья 12 о штрафах".data : List Char) <:+: exLoadC7 "koap_rf.txt"
        ∧ ∃ i pat, listFind (lower (exLoadC7 "koap_rf.txt")) pat = some i
            ∧ ("статья 12 о штрафах".data : List Char)
                = pySlice (exLoadC7 "koap_rf.txt") (i - 80) (i + 900)
            ∧ i < (exLoadC7 "koap_rf.txt").length) :=
  ⟨by decide,
    find_article_window_bounds exLoadC7 ("коап 12".data) true "koap_rf.txt"
      ("статья 12 о штрафах".data) (by decide)⟩

/-- C9: whenever `find_article` reports a found document, the fragment is
non-empty: the window always contains at least the start of the match, so
an empty-but-found fragment is impossible. -/
theorem find_article_found_nonempty (loadLaw : String → List Char)
    (query : List Char) (lawsOk : Bool) (d : String) (frag : List Char)
    (h : find_article loadLaw query lawsOk = some (d, frag)) : frag ≠ [] := by
  obtain ⟨i, pat, hfind, hfrag, hlt⟩ := find_article_sound _ _ _ _ _ h
  have hpos : 0 < frag.length := by
    rw [hfrag, pySlice_length]
    omega
  exact List.ne_nil_of_length_pos hpos

theorem find_article_found_nonempty_witness :
    find_article exLoadC9 ("гк 3".data) true
        = some ("gk_rf.txt", ("статья 3 право".data))
    ∧ (("статья 3 право".data : List Char) ≠ []) :=
  ⟨by decide,
    find_article_found_nonempty exLoadC9 ("гк 3".data) true "gk_rf.txt"
      ("статья 3 право".data) (by decide)⟩

end App
